import Mathlib

/-!
# Verification of `audio-utils` (core.py, io.py)

Shallow embedding of the `audio_utils` Python package.  An audio buffer of
shape `(C, N)` is modelled as a `List (List α)` with `C` channel rows of
length `N`; Python's `len(audio)` on such an array is the length of the
outer list (the channel count), `audio.shape[-1]` is the length of a row,
and `audio[:, a:b]` slices every row.  Python exceptions are modelled as
`Except` values of type `PyErr`.
-/

namespace AudioUtils

/-- Python exceptions that the modelled code can raise. -/
inductive PyErr where
  | indexError
  | valueError
  | assertionError
  deriving DecidableEq, Repr

/-- Python slice `l[a:b]` for `0 ≤ a, b` (clamped at the list's length,
empty when `a ≥ b`). -/
def pySlice {α : Type} (a b : Nat) (l : List α) : List α :=
  (l.take b).drop a

/-- `audio.shape[-1]` of a `(C, N)` buffer with `C ≥ 1`: the length of a
channel row. -/
def numFrames {α : Type} : List (List α) → Nat
  | [] => 0
  | ch :: _ => ch.length

/-- The loop body of `_coalesce_timestamps` (core.py lines 44-52).  The
Python loop runs `i` over `range(1, len(timestamps)+1)` reading
`timestamps[i]` each iteration; `fuel` counts the remaining iterations and
`i` is the current index.  On an out-of-bounds read the raised `IndexError`
is paired with the list of intervals appended to `coalesced_timestamps`
before the raise, so that statements about the emitted intervals can be
made.  Note the else-branch of the source appends
`[last_start_time, end_time]` — `end_time` being the *current* row's end,
not the carried `last_end_time`. -/
def coalesceIter {α : Type} (cond : α → α → Bool) (ts : List (α × α)) :
    Nat → Nat → α → α → List (α × α) →
    Except (PyErr × List (α × α)) (α × α × List (α × α))
  | 0, _, lastS, lastE, acc => .ok (lastS, lastE, acc)
  | fuel + 1, i, lastS, lastE, acc =>
    match ts[i]? with
    | none => .error (.indexError, acc)
    | some (s, e) =>
      if cond lastE s then
        coalesceIter cond ts fuel (i + 1) lastS e acc
      else
        coalesceIter cond ts fuel (i + 1) s e (acc ++ [(lastS, e)])

/-- Embedding of `_coalesce_timestamps` (core.py lines 37-59).  Seeds the
carried interval from `timestamps[0]` (raising `IndexError` on an empty
list) and then runs the loop for `i = 1 .. len(timestamps)` inclusive —
the bound of the source's `range(1, len(timestamps)+1)`.  There is no
post-loop flush in the source: on normal exit the accumulated list is
returned as is. -/
def _coalesce_timestamps {α : Type} (cond : α → α → Bool)
    (timestamps : List (α × α)) :
    Except (PyErr × List (α × α)) (List (α × α)) :=
  match timestamps with
  | [] => .error (.indexError, [])
  | t0 :: _ =>
    match coalesceIter cond timestamps timestamps.length 1 t0.1 t0.2 [] with
    | .error err => .error err
    | .ok (_, _, acc) => .ok acc

/-- C1: on the start-sorted input `[(0,1), (10,11)]` with predicate
"gap < 2", the predicate is false at `(1, 10)`, yet the sweep emits
`(0, 11)` — an interval ending at the *next* row's end `11`, not the
carried run's last end `1` — before raising `IndexError` on the
out-of-bounds final iteration. -/
theorem coalesce_emits_next_rows_end :
    _coalesce_timestamps (fun e s => decide (s - e < 2))
      [((0 : Int), 1), (10, 11)] =
      .error (.indexError, [((0 : Int), 11)]) := by
  rfl

/-- C2: on the non-empty input `[(5, 9)]` the sweep reads `timestamps[1]`,
one element past the end, raising `IndexError` with nothing emitted: the
final carried interval `(5, 9)` is never included in the output.  The
predicate is never even consulted (the conjuncts use an always-true and an
always-false predicate). -/
theorem coalesce_reads_out_of_bounds :
    _coalesce_timestamps (fun _ _ => true) [((5 : Int), 9)] =
      .error (.indexError, []) ∧
    _coalesce_timestamps (fun _ _ => false) [((5 : Int), 9)] =
      .error (.indexError, []) := by
  exact ⟨rfl, rfl⟩

/-- C3: coalescing the single-interval input `[(3, 4)]` does not return
that interval unchanged: it raises `IndexError` (for any predicate — shown
for an always-true and an always-false one) with an empty emitted list. -/
theorem coalesce_singleton_raises :
    _coalesce_timestamps (fun _ _ => true) [((3 : Int), 4)] =
      .error (.indexError, []) ∧
    _coalesce_timestamps (fun _ _ => false) [((3 : Int), 4)] =
      .error (.indexError, []) := by
  exact ⟨rfl, rfl⟩

/-- Embedding of `zero_pad` (core.py lines 154-174) for a positive
`required_len`.  `num_frames = audio.shape[-1]`; the pad amount is
`required_len - num_frames % required_len`, and when that equals
`required_len` (i.e. the length is already a multiple of `required_len`,
zero included) the buffer is returned unchanged; otherwise every channel
is padded at the end with that many zeros (`np.pad` with
`pad_width=((0,0),(0,after))`, constant value `0`). -/
def zero_pad (audio : List (List Int)) (required_len : Nat) :
    List (List Int) :=
  let after := required_len - numFrames audio % required_len
  if after = required_len then audio
  else audio.map fun ch => ch ++ List.replicate after 0

/-- `np.stack` succeeds only when all arrays share a shape; for our
rectangular `(C, L)` windows this is equality of the per-row length
profiles. -/
def sameShape {α : Type} (a b : List (List α)) : Bool :=
  a.map List.length == b.map List.length

/-- Embedding of `window` (core.py lines 88-120).  Python's `len(audio)`
on a `(C, N)` array is `C`, the channel count — the source uses it both in
`n_chunks = int(np.ceil(len(audio)/window_len))` and in
`end_idx = min([end_idx, len(audio)])`.  `start_idxs` is
`np.arange(0, n_chunks*window_len, hop_len)`; each window is
`audio[:, start_idx:end_idx]` zero-padded to `window_len`; `np.stack`
raises `ValueError` when the windows' shapes differ or when there are no
windows at all. -/
def window (audio : List (List Int)) (window_len hop_len : Nat) :
    Except PyErr (List (List (List Int))) :=
  let lenAudio := audio.length
  let n_chunks := (lenAudio + window_len - 1) / window_len
  let starts :=
    (List.range ((n_chunks * window_len + hop_len - 1) / hop_len)).map
      (· * hop_len)
  let wins := starts.map fun s =>
    let e := min (s + window_len) lenAudio
    zero_pad (audio.map (pySlice s e)) window_len
  match wins with
  | [] => .error .valueError
  | w0 :: rest =>
    if rest.all fun w => sameShape w w0 then .ok wins
    else .error .valueError

/-- A 100-sample single-channel buffer holding samples `1, 2, ..., 100`. -/
def ex100 : List (List Int) :=
  [(List.range 100).map fun n => (n : Int) + 1]

/-- C5: on the spec's own example — shape `(1, 100)`, `window_len = 48`,
`hop_len = 48` — the code computes `n_chunks` from `len(audio) = 1` (the
channel count), getting `ceil(1/48) = 1`, and returns a single window at
offset 0 holding only sample index 0 plus 47 zeros, not three windows at
offsets 0, 48, 96. -/
theorem window_example_collapses :
    window ex100 48 48 = .ok [[(1 : Int) :: List.replicate 47 0]] := by
  rfl

/-- C4: on the buffer `[[5, 7]]` (shape `(1, 2)`) with
`window_len = hop_len = 1`, the only produced window is `[[5]]`: the
original sample `7` at index 1 appears in no window, because the tiling
extent is computed from the channel count `len(audio) = 1` rather than
from the 2 samples. -/
theorem window_drops_samples :
    window [[(5 : Int), 7]] 1 1 = .ok [[[5]]] ∧
    (7 : Int) ∉ [(5 : Int)] := by
  exact ⟨rfl, by decide⟩

/-- C6 counterexample: on the rank-2 buffer of shape `(1, 0)` with
`L = 48`, `zero_pad` returns the input unchanged although its length 0 is
not a *non-zero* multiple of 48, so "returned unchanged exactly when the
length is an exact, non-zero multiple of L" fails at `N = 0`. -/
theorem zero_pad_unchanged_at_zero :
    ¬ (zero_pad [([] : List Int)] 48 = [([] : List Int)] ↔
        48 ∣ 0 ∧ (0 : Nat) ≠ 0) := by
  decide

/-- C6 (amended): for a non-empty rectangular `(C, N)` buffer and
`0 < L`, `zero_pad` appends `(L - N % L) % L` zeros at the end of every
channel (original samples unchanged as a prefix), every output channel's
length is the smallest multiple of `L` that is `≥ N`, and the input is
returned unchanged exactly when `L ∣ N` — including `N = 0`. -/
theorem zero_pad_correct (audio : List (List Int)) (N L : Nat)
    (hL : 0 < L) (hne : audio ≠ []) (hrect : ∀ ch ∈ audio, ch.length = N) :
    zero_pad audio L =
      audio.map (fun ch => ch ++ List.replicate ((L - N % L) % L) 0) ∧
    (∀ ch ∈ zero_pad audio L,
      ch.length % L = 0 ∧ N ≤ ch.length ∧ ch.length < N + L) ∧
    (zero_pad audio L = audio ↔ L ∣ N) := by
  obtain ⟨ch0, rest, rfl⟩ := List.exists_cons_of_ne_nil hne
  have hnf : numFrames (ch0 :: rest) = N := hrect ch0 (by simp)
  have hmod : N % L < L := Nat.mod_lt _ hL
  by_cases h : N % L = 0
  · have hpad : (L - N % L) % L = 0 := by
      rw [h, Nat.sub_zero, Nat.mod_self]
    have hunch : zero_pad (ch0 :: rest) L = ch0 :: rest := by
      unfold zero_pad
      rw [hnf, h]
      simp
    refine ⟨?_, ?_, ?_⟩
    · rw [hunch, hpad]
      simp
    · intro ch hch
      rw [hunch] at hch
      have hlen := hrect ch hch
      rw [hlen]
      exact ⟨h, Nat.le_refl N, by omega⟩
    · rw [hunch]
      simp
      exact Nat.dvd_of_mod_eq_zero h
  · have hafter : L - N % L ≠ L := by omega
    have hpad : (L - N % L) % L = L - N % L :=
      Nat.mod_eq_of_lt (by omega)
    have heq : zero_pad (ch0 :: rest) L =
        (ch0 :: rest).map (fun ch => ch ++ List.replicate (L - N % L) 0) := by
      unfold zero_pad
      rw [hnf, if_neg hafter]
    refine ⟨?_, ?_, ?_⟩
    · rw [heq, hpad]
    · intro ch hch
      rw [heq] at hch
      obtain ⟨ch', hch', rfl⟩ := List.mem_map.mp hch
      have hl := hrect ch' hch'
      simp [hl]
      have hmodz : (N + (L - N % L)) % L = 0 := by
        have hq := Nat.div_add_mod N L
        have hsum : N + (L - N % L) = L * (N / L) + L := by omega
        rw [hsum, ← Nat.mul_succ]
        exact Nat.mul_mod_right L (N / L + 1)
      exact ⟨hmodz, by omega, by omega⟩
    · rw [heq]
      constructor
      · intro habs
        have hlen := congrArg numFrames habs
        simp [numFrames, hrect ch0 (by simp)] at hlen
        exact absurd hlen (by omega)
      · intro hdvd
        obtain ⟨k, rfl⟩ := hdvd
        exact absurd (Nat.mul_mod_right L k) h

/-- Witness for `zero_pad_correct` at the `(1, 2)` buffer `[[1, 2]]` with
`L = 48`. -/
theorem zero_pad_correct_witness :
    (0 < 48) ∧ ([[(1 : Int), 2]] ≠ ([] : List (List Int))) ∧
    (∀ ch ∈ [[(1 : Int), 2]], ch.length = 2) ∧
    (zero_pad [[(1 : Int), 2]] 48 =
        [[(1 : Int), 2]].map
          (fun ch => ch ++ List.replicate ((48 - 2 % 48) % 48) 0) ∧
      (∀ ch ∈ zero_pad [[(1 : Int), 2]] 48,
        ch.length % 48 = 0 ∧ 2 ≤ ch.length ∧ ch.length < 2 + 48) ∧
      (zero_pad [[(1 : Int), 2]] 48 = [[(1 : Int), 2]] ↔ 48 ∣ 2)) :=
  ⟨by decide, by decide, by decide,
    zero_pad_correct [[(1 : Int), 2]] 2 48 (by decide) (by decide) (by decide)⟩

/-- Embedding of `downmix` (core.py lines 122-131):
`audio.mean(axis=-2, keepdims=True)` on a `(C, N)` buffer produces the
`(1, N)` buffer whose sample at index `n` is the sum of the `C` channel
samples at `n` divided by `C`. -/
def downmix (audio : List (List ℚ)) : List (List ℚ) :=
  [(List.range (numFrames audio)).map fun n =>
      (audio.map fun ch => ch.getD n 0).sum / (audio.length : ℚ)]

/-- C8: for every rectangular `(C, N)` buffer with `C ≥ 1`, `downmix`
returns a `(1, N)` buffer whose sample at each index is the arithmetic
mean of the `C` channel samples there; when all channels are one shared
channel, the single output channel is that channel unchanged. -/
theorem downmix_spec (audio : List (List ℚ)) (N : Nat)
    (hC : 0 < audio.length) (hrect : ∀ ch ∈ audio, ch.length = N) :
    downmix audio =
      [(List.range N).map fun n =>
        (audio.map fun ch => ch.getD n 0).sum / (audio.length : ℚ)] ∧
    ((List.range N).map fun n =>
        (audio.map fun ch => ch.getD n 0).sum / (audio.length : ℚ)).length
      = N ∧
    ∀ ch, audio = List.replicate audio.length ch → downmix audio = [ch] := by
  have hne : audio ≠ [] := List.length_pos.mp hC
  obtain ⟨ch0, rest, rfl⟩ := List.exists_cons_of_ne_nil hne
  have hnf : numFrames (ch0 :: rest) = N := hrect ch0 (by simp)
  refine ⟨by unfold downmix; rw [hnf], by simp, ?_⟩
  intro ch hrep
  have hmem : ch ∈ ch0 :: rest := by
    rw [hrep]
    exact List.mem_replicate.mpr ⟨by simp, rfl⟩
  have hchlen : ch.length = N := hrect ch hmem
  have hCne : (((ch0 :: rest).length : ℚ)) ≠ 0 :=
    Nat.cast_ne_zero.mpr (by simp)
  unfold downmix
  rw [hnf]
  congr 1
  have hcol : ∀ n : Nat,
      ((ch0 :: rest).map fun c => c.getD n 0).sum
          / (((ch0 :: rest).length : ℚ))
        = ch.getD n 0 := by
    intro n
    have hmapc : (ch0 :: rest).map (fun c => c.getD n 0)
        = List.replicate (ch0 :: rest).length (ch.getD n 0) := by
      refine List.eq_replicate_iff.mpr ⟨by simp, ?_⟩
      intro b hb
      obtain ⟨c, hc, rfl⟩ := List.mem_map.mp hb
      rw [hrep] at hc
      rw [List.eq_of_mem_replicate hc]
    rw [hmapc, List.sum_replicate, nsmul_eq_mul]
    exact mul_div_cancel_left₀ _ hCne
  calc (List.range N).map
        (fun n => ((ch0 :: rest).map fun c => c.getD n 0).sum
          / (((ch0 :: rest).length : ℚ)))
      = (List.range N).map (fun n => ch.getD n 0) := by
        exact List.map_congr_left fun n _ => hcol n
    _ = ch := by
        apply List.ext_getElem (by simp [hchlen])
        intro n h1 h2
        simp only [List.getElem_map, List.getElem_range]
        exact List.getD_eq_getElem ch 0 h2

/-- Witness for `downmix_spec` at the `(2, 2)` buffer `[[1, 2], [3, 4]]`. -/
theorem downmix_spec_witness :
    (0 < ([[(1 : ℚ), 2], [3, 4]] : List (List ℚ)).length) ∧
    (∀ ch ∈ ([[(1 : ℚ), 2], [3, 4]] : List (List ℚ)), ch.length = 2) ∧
    (downmix [[(1 : ℚ), 2], [3, 4]] =
      [(List.range 2).map fun n =>
        (([[(1 : ℚ), 2], [3, 4]] : List (List ℚ)).map
            (fun ch => ch.getD n 0)).sum
          / (([[(1 : ℚ), 2], [3, 4]] : List (List ℚ)).length : ℚ)] ∧
    ((List.range 2).map fun n =>
        (([[(1 : ℚ), 2], [3, 4]] : List (List ℚ)).map
            (fun ch => ch.getD n 0)).sum
          / (([[(1 : ℚ), 2], [3, 4]] : List (List ℚ)).length : ℚ)).length
      = 2 ∧
    ∀ ch, ([[(1 : ℚ), 2], [3, 4]] : List (List ℚ)) =
        List.replicate ([[(1 : ℚ), 2], [3, 4]] : List (List ℚ)).length ch →
      downmix [[(1 : ℚ), 2], [3, 4]] = [ch]) :=
  ⟨by decide, by decide,
    downmix_spec [[(1 : ℚ), 2], [3, 4]] 2 (by decide) (by decide)⟩

/-- The merge predicate built inline by `split_on_silence` (core.py line
72): `lambda e, s: abs((s - e) * sr) < min_silence_duration`.  Endpoints,
`sr` and the threshold are modelled as rationals; the comparison is
exact. -/
def split_condition (sr min_silence_duration e s : ℚ) : Bool :=
  decide (|(s - e) * sr| < min_silence_duration)

/-- Embedding of `split_on_silence` (core.py lines 65-74) downstream of
the external silence detector: `librosa.effects.split` is the
out-of-scope collaborator, so its output `detected` is taken as a
parameter, and the function coalesces it under `split_condition`. -/
def split_on_silence (detected : List (ℚ × ℚ))
    (sr min_silence_duration : ℚ) :
    Except (PyErr × List (ℚ × ℚ)) (List (ℚ × ℚ)) :=
  _coalesce_timestamps (split_condition sr min_silence_duration) detected

/-- C7: with `sr = 2` and `min_silence_duration = 1`, the gap from
`previous_end = 0` to `next_start = 1` (1 sample) is below
`min_silence_duration * sr = 2` samples — the claim's merge criterion —
yet the code's predicate evaluates false, because it computes
`|(1 - 0) * 2| = 2 < 1`: the sample gap is multiplied by the sample rate
and compared against the seconds threshold. -/
theorem split_condition_wrong_units :
    split_condition 2 1 0 1 = false ∧ ((1 : ℚ) - 0 < 1 * 2) := by
  refine ⟨?_, by norm_num⟩
  simp only [split_condition]
  norm_num

/-- numpy arrays of the two ranks the library passes around. -/
inductive NpAudio (α : Type) where
  | d1 : List α → NpAudio α
  | d2 : List (List α) → NpAudio α
  deriving DecidableEq, Repr

/-- Embedding of `librosa_input_wrap` (core.py lines 26-30): after
`_check_audio_types` (whose type assertions cannot fire on a rank-2
value; its warnings do not alter control flow), a mono `(1, N)` buffer is
unwrapped to its single row `audio[0]`, and every other rank-2 buffer is
returned unchanged.  The `Except` layer records that no exception is
raised on any rank-2 input. -/
def librosa_input_wrap {α : Type} (audio : List (List α)) :
    Except PyErr (NpAudio α) :=
  if audio.length = 1 then .ok (.d1 (audio.headD []))
  else .ok (.d2 audio)

/-- C9 counterexample: on the 2-channel buffer `[[1, 2], [3, 4]]`,
`librosa_input_wrap` returns the buffer unchanged as a value — it does
not fail with any error. -/
theorem librosa_input_wrap_returns :
    librosa_input_wrap [[(1 : Int), 2], [3, 4]] =
      .ok (.d2 [[(1 : Int), 2], [3, 4]]) := by
  rfl

/-- C9 (amended): for every rank-2 buffer with channel count `C ≥ 2`,
`librosa_input_wrap` returns the buffer unchanged (still rank 2) instead
of failing with a `ChannelMismatchError`-style error. -/
theorem librosa_input_wrap_multichannel {α : Type} (audio : List (List α))
    (h : 2 ≤ audio.length) :
    librosa_input_wrap audio = .ok (.d2 audio) := by
  unfold librosa_input_wrap
  rw [if_neg (by omega)]

/-- Witness for `librosa_input_wrap_multichannel` at `[[1], [2]]`. -/
theorem librosa_input_wrap_multichannel_witness :
    2 ≤ ([[(1 : Int)], [2]] : List (List Int)).length ∧
    librosa_input_wrap [[(1 : Int)], [2]] =
      .ok (.d2 [[(1 : Int)], [2]]) :=
  ⟨by decide, librosa_input_wrap_multichannel [[(1 : Int)], [2]] (by decide)⟩

/-- The last nonempty `/`-separated component of a path — pathlib's
`PurePath.name`.  `cur` is the segment currently being scanned and `last`
the last nonempty segment seen before it. -/
def pathNameAux : List Char → List Char → List Char → List Char
  | [], cur, last => if cur = [] then last else cur
  | c :: cs, cur, last =>
    if c = '/' then pathNameAux cs [] (if cur = [] then last else cur)
    else pathNameAux cs (cur ++ [c]) last

/-- `PurePath(path).name` over characters. -/
def pathName (path : List Char) : List Char :=
  pathNameAux path [] []

/-- Splits a name at its last `'.'`: `some (pre, post)` such that
`name = pre ++ '.' :: post` with no `'.'` in `post`; `none` when the name
contains no dot. -/
def lastDotSplit : List Char → Option (List Char × List Char)
  | [] => none
  | c :: cs =>
    match lastDotSplit cs with
    | some (pre, post) => some (c :: pre, post)
    | none => if c = '.' then some ([], cs) else none

/-- pathlib's suffix rule on a name: `name[i:]` when the last dot sits at
an index `i` with `0 < i < len(name) - 1` — that is, `'.' :: post` when
both the part before the last dot and the part after it are nonempty —
and the empty string otherwise. -/
def nameSuffix (name : List Char) : List Char :=
  match lastDotSplit name with
  | none => []
  | some (pre, post) => if pre = [] ∨ post = [] then [] else '.' :: post

/-- `Path(path).suffix`. -/
def pathlibSuffix (path : List Char) : List Char :=
  nameSuffix (pathName path)

/-- Embedding of `_add_file_format_to_filename` (io.py lines 24-27):
append the bare format string whenever `Path(path).suffix` differs from
it. -/
def _add_file_format_to_filename (path fmt : List Char) : List Char :=
  if pathlibSuffix path ≠ fmt then path ++ fmt else path

/-- The target path computed by `write_audio_file` (io.py lines 29-55)
before any filesystem interaction: the `audio_format` assertion against
`('flac', 'ogg', 'wav')`, then `_add_file_format_to_filename`.  The
existence check and the encode itself are I/O at the external boundary
and outside the model. -/
def write_audio_file_target (path fmt : List Char) :
    Except PyErr (List Char) :=
  if fmt = ['f', 'l', 'a', 'c'] ∨ fmt = ['o', 'g', 'g'] ∨
      fmt = ['w', 'a', 'v'] then
    .ok (_add_file_format_to_filename path fmt)
  else .error .assertionError

/-- A pathlib suffix is either empty or begins with a dot. -/
theorem nameSuffix_empty_or_dot (name : List Char) :
    nameSuffix name = [] ∨ ∃ t, nameSuffix name = '.' :: t := by
  cases hls : lastDotSplit name with
  | none => left; simp [nameSuffix, hls]
  | some pp =>
    obtain ⟨pre, post⟩ := pp
    by_cases h : pre = [] ∨ post = []
    · left; simp [nameSuffix, hls, h]
    · right; exact ⟨post, by simp [nameSuffix, hls, h]⟩

/-- C10: for every path and every accepted format, the suffix comparison
`Path(path).suffix != file_format` always holds — the suffix begins with
a dot (or is empty) while the format is bare — so `write_audio_file`
writes to `path + file_format`, the path with the bare format appended
with no dot separator. -/
theorem write_audio_file_appends (path fmt : List Char)
    (h : fmt = ['f', 'l', 'a', 'c'] ∨ fmt = ['o', 'g', 'g'] ∨
      fmt = ['w', 'a', 'v']) :
    write_audio_file_target path fmt = .ok (path ++ fmt) := by
  have hsuf : pathlibSuffix path ≠ fmt := by
    rcases nameSuffix_empty_or_dot (pathName path) with he | ⟨t, ht⟩
    · intro hc
      rw [pathlibSuffix, he] at hc
      rcases h with rfl | rfl | rfl <;> simp at hc
    · intro hc
      rw [pathlibSuffix, ht] at hc
      rcases h with rfl | rfl | rfl <;> simp at hc
  unfold write_audio_file_target
  rw [if_pos h]
  unfold _add_file_format_to_filename
  rw [if_pos hsuf]

/-- Witness for `write_audio_file_appends` at the path `"out.flac"` and
format `"flac"`: the file is written to `"out.flacflac"`. -/
theorem write_audio_file_appends_witness :
    ((['f', 'l', 'a', 'c'] : List Char) = ['f', 'l', 'a', 'c'] ∨
      (['f', 'l', 'a', 'c'] : List Char) = ['o', 'g', 'g'] ∨
      (['f', 'l', 'a', 'c'] : List Char) = ['w', 'a', 'v']) ∧
    write_audio_file_target ['o', 'u', 't', '.', 'f', 'l', 'a', 'c']
        ['f', 'l', 'a', 'c'] =
      .ok (['o', 'u', 't', '.', 'f', 'l', 'a', 'c'] ++
        ['f', 'l', 'a', 'c']) ∧
    ['o', 'u', 't', '.', 'f', 'l', 'a', 'c'] ++ ['f', 'l', 'a', 'c'] =
      ['o', 'u', 't', '.', 'f', 'l', 'a', 'c', 'f', 'l', 'a', 'c'] :=
  ⟨Or.inl rfl,
    write_audio_file_appends ['o', 'u', 't', '.', 'f', 'l', 'a', 'c']
      ['f', 'l', 'a', 'c'] (Or.inl rfl),
    by decide⟩

end AudioUtils
